import Mathlib

/-!
Shallow embedding of the `familylink` repository's core logic:

* `src/familylink/cli.py` — configuration parsing (`_parse_duration`,
  `_parse_days`, `_load_config`), schedule resolution
  (`_get_expected_limits`) and the reconciliation loop inside
  `_apply_config`;
* `src/familylink/client.py` — app-identifier resolution
  (`_get_app_package_name`, `_cache_app_names`) and restriction updates
  (`update_app_restrictions`, `remove_app_limit`).

Python values of type `bool | int | None` (the values of the
`expected_limits` and `current_limit_per_app` dictionaries) are embedded
as the inductive `PyVal`; Python dictionaries keyed by strings are
embedded as association lists whose update operation preserves insertion
order, matching CPython dict semantics.  Fallible Python code (raised
exceptions) is embedded with `Except String`.
-/

deriving instance DecidableEq for Except

/-- A Python value of type `bool | int | None`, as stored in the
`expected_limits` and `current_limit_per_app` dictionaries of
`_apply_config` (cli.py). -/
inductive PyVal where
  | vbool (b : Bool)
  | vint (n : Int)
  | vnone
deriving DecidableEq, Repr

/-- Python `==` on `bool | int | None` values: CPython compares `bool`
with `int` numerically (`True == 1`, `False == 0`); `None` is equal only
to `None`. -/
def pyEq : PyVal → PyVal → Bool
  | .vbool a, .vbool b => a == b
  | .vbool a, .vint n => (if a then (1 : Int) else 0) == n
  | .vint n, .vbool b => n == (if b then (1 : Int) else 0)
  | .vint m, .vint n => m == n
  | .vnone, .vnone => true
  | _, _ => false

/-- Python truthiness of a `bool | int | None` value (`bool(x)`):
`False`, `0` and `None` are falsy, everything else truthy. -/
def pyTruthy : PyVal → Bool
  | .vbool b => b
  | .vint n => n != 0
  | .vnone => false

/-- Python identity test `x is False` on a `bool | int | None` value:
only the object `False` itself passes (`0 is False` is `False` in
CPython). -/
def isFalseObj : PyVal → Bool
  | .vbool false => true
  | _ => false

/-- Lookup in a Python dictionary embedded as an association list
(`d.get(k)` / `d[k]`): the first binding of the key wins (bindings are
unique in every list built by `dictSet`). -/
def dictGet {α : Type} : List (String × α) → String → Option α
  | [], _ => none
  | (k, v) :: rest, key => if k = key then some v else dictGet rest key

/-- Assignment `d[k] = v` on a Python dictionary embedded as an
association list: an existing binding is updated in place (position
preserved), a new key is appended, matching CPython insertion order. -/
def dictSet {α : Type} : List (String × α) → String → α → List (String × α)
  | [], key, v => [(key, v)]
  | (k, w) :: rest, key, v =>
    if k = key then (key, v) :: rest else (k, w) :: dictSet rest key v

/-- An intended action of the reconciler, one per app of the current
state (spec §3 `Action`).  `setLimit` carries the expected value passed
to `client.set_app_limit`; `noop` covers both the "already set" message
and the silent fall-through of `_apply_config`. -/
inductive ReconcileAction where
  | setLimit (app : String) (v : PyVal)
  | alwaysAllow (app : String)
  | block (app : String)
  | noop (app : String)
deriving DecidableEq, Repr

/-- The app a reconciler action refers to. -/
def actionApp : ReconcileAction → String
  | .setLimit a _ => a
  | .alwaysAllow a => a
  | .block a => a
  | .noop a => a

/-- `true` exactly on `ReconcileAction.noop`. -/
def isNoop : ReconcileAction → Bool
  | .noop _ => true
  | _ => false

/-- The per-app decision of the reconciliation loop of `_apply_config`
(cli.py lines 225–248): `if expected_limit := expected_limits.get(app)`
(presence plus truthiness), then Python `==` against the current value,
then `expected_limit is True`, else set-limit; with no truthy expected
value, `elif limit is not False` blocks and otherwise nothing happens
(embedded as `noop`). -/
def decideAction (expected : List (String × PyVal)) (app : String)
    (limit : PyVal) : ReconcileAction :=
  match dictGet expected app with
  | some ev =>
    if pyTruthy ev then
      if pyEq ev limit then .noop app
      else if ev = .vbool true then .alwaysAllow app
      else .setLimit app ev
    else if isFalseObj limit then .noop app else .block app
  | none => if isFalseObj limit then .noop app else .block app

/-- The whole reconciliation pass of `_apply_config`: one action per
entry of `current_limit_per_app`, in dictionary (insertion) order. -/
def reconcile (expected current : List (String × PyVal)) : List ReconcileAction :=
  current.map (fun p => decideAction expected p.1 p.2)

/-- Modelled from the spec: the hypothetical effect of one reconciler
action on an app's current value — `SetLimit(app, m)` makes it `m`,
`AlwaysAllow` makes it `True`, `Block` makes it `False`, `NoOp` leaves
it unchanged (spec §8, idempotence property). -/
def applyValue : ReconcileAction → PyVal → PyVal
  | .setLimit _ v, _ => v
  | .alwaysAllow _, _ => .vbool true
  | .block _, _ => .vbool false
  | .noop _, l => l

/-- Modelled from the spec: the current state obtained by applying each
action the reconciler emits to the entry it was emitted for. -/
def applyReconcile (expected current : List (String × PyVal)) :
    List (String × PyVal) :=
  current.map (fun p => (p.1, applyValue (decideAction expected p.1 p.2) p.2))

/-- Lexicographic comparison of two character lists by code point,
modelling CPython string `<=`. -/
def charListLe : List Char → List Char → Bool
  | [], _ => true
  | _ :: _, [] => false
  | a :: as, b :: bs => if a < b then true else if b < a then false else charListLe as bs

/-- Python string comparison `a <= b` (lexicographic by code point). -/
def pyStrLe (a b : String) : Bool := charListLe a.data b.data

/-- `leadsWith needle hay`: `hay` begins with `needle`.  Models Python
`str.startswith` on the underlying character lists (structural
recursion, so it evaluates inside the kernel). -/
def leadsWith : List Char → List Char → Bool
  | [], _ => true
  | _ :: _, [] => false
  | a :: as, b :: bs => a == b && leadsWith as bs

/-- `occursIn needle hay`: `needle` occurs as a contiguous substring of
`hay`.  Models the Python operator `needle in hay` on strings. -/
def occursIn (needle : List Char) : List Char → Bool
  | [] => needle.isEmpty
  | b :: bs => leadsWith needle (b :: bs) || occursIn needle bs

/-- Split a character list on a single-character separator, modelling
Python `str.split(sep)` for the one-character separators the source
uses (`":"`, `";"`, `"-"`): `"".split(sep) == [""]` and adjacent
separators yield empty parts. -/
def splitOnChar (sep : Char) : List Char → List (List Char)
  | [] => [[]]
  | c :: rest =>
    if c == sep then [] :: splitOnChar sep rest
    else
      match splitOnChar sep rest with
      | [] => [[c]]
      | h :: t => (c :: h) :: t

/-- Python `s.split(sep)` for a one-character separator, as strings. -/
def pySplit (s : String) (sep : Char) : List String :=
  (splitOnChar sep s.data).map (fun l => String.mk l)

/-- Drop leading whitespace characters. -/
def dropLeadingWs : List Char → List Char
  | [] => []
  | c :: rest => if c.isWhitespace then dropLeadingWs rest else c :: rest

/-- Python `str.strip()`: whitespace removed from both ends. -/
def pyStrip (s : String) : String :=
  String.mk ((dropLeadingWs ((dropLeadingWs s.data).reverse)).reverse)

/-- Python `str.lower()` (ASCII case folding, which is all the source's
day tokens and app names need). -/
def pyLower (s : String) : String := String.mk (s.data.map Char.toLower)

/-- The numeric value of a list of decimal digit characters, `none` when
the list is empty or contains a non-digit. -/
def pyDigits? (l : List Char) : Option Nat :=
  if l.isEmpty || !(l.all Char.isDigit) then none
  else some (l.foldl (fun acc c => acc * 10 + (c.toNat - 48)) 0)

/-- The configuration entry for one app, as built by `_load_config`
(cli.py): either the dictionary `{"always_allowed": True}` or the
dictionary `{"schedules": {day: time_ranges_string}, "limits":
{day: minutes}}`. -/
inductive AppSettings where
  | alwaysAllowed : AppSettings
  | scheduled (schedules : List (String × String)) (limits : List (String × Int)) :
      AppSettings
deriving DecidableEq, Repr

/-- CPython `int(s)` on a decimal string literal with optional sign and
surrounding whitespace; raises `ValueError` otherwise. -/
def pyInt (s : String) : Except String Int :=
  match (pyStrip s).data with
  | '-' :: rest =>
    match pyDigits? rest with
    | some n => .ok (-(n : Int))
    | none => .error ("ValueError: invalid literal for int: " ++ s)
  | '+' :: rest =>
    match pyDigits? rest with
    | some n => .ok (n : Int)
    | none => .error ("ValueError: invalid literal for int: " ++ s)
  | t =>
    match pyDigits? t with
    | some n => .ok (n : Int)
    | none => .error ("ValueError: invalid literal for int: " ++ s)

/-- `_parse_duration` (cli.py lines 108–116): the empty string gives 0;
a string splitting on `:` into exactly two parts gives
`hours * 60 + minutes` (with `int()` possibly raising); any other split
arity gives 0. -/
def _parse_duration (duration_str : String) : Except String Int :=
  if duration_str = "" then .ok 0
  else
    match pySplit duration_str ':' with
    | [h, m] => do
      let hours ← pyInt h
      let minutes ← pyInt m
      .ok (hours * 60 + minutes)
    | _ => .ok 0

/-- The `days_map` dictionary of `_parse_days` (cli.py lines 124–132). -/
def daysMap : List (String × String) :=
  [("mon", "monday"), ("tue", "tuesday"), ("wed", "wednesday"),
   ("thu", "thursday"), ("fri", "friday"), ("sat", "saturday"),
   ("sun", "sunday")]

/-- Python `list.index(x)`: the index of the first occurrence, raising
`ValueError` when the element is absent. -/
def listIndex (l : List String) (x : String) : Except String Nat :=
  match l.findIdx? (fun y => y == x) with
  | some i => .ok i
  | none => .error ("ValueError: " ++ x ++ " is not in list")

/-- `_parse_days` (cli.py lines 119–142): the empty string gives `[]`;
a string containing `-` is lowercased and split on `-` into exactly two
parts which are looked up in `days_map`'s key list, and the full-name
list is sliced `[start_idx : end_idx + 1]` (an out-of-order pair slices
to the empty list, exactly as in Python); otherwise the single token is
looked up in `days_map` (raising `KeyError` when unknown). -/
def _parse_days (days_str : String) : Except String (List String) :=
  if days_str = "" then .ok []
  else
    let all_days := daysMap.map Prod.snd
    if days_str.data.contains '-' then
      match pySplit (pyLower days_str) '-' with
      | [s, e] => do
        let start_idx ← listIndex (daysMap.map Prod.fst) s
        let end_idx ← listIndex (daysMap.map Prod.fst) e
        .ok ((all_days.drop start_idx).take (end_idx + 1 - start_idx))
      | _ => .error "ValueError: too many values to unpack"
    else
      match dictGet daysMap (pyLower days_str) with
      | some d => .ok [d]
      | none => .error ("KeyError: " ++ pyLower days_str)

/-- One row of the configuration CSV file, with the four fields read by
`_load_config` (values as they appear in the file, before `.strip()`). -/
structure Row where
  app : String
  maxDuration : String
  days : String
  timeRanges : String
deriving DecidableEq, Repr

/-- The inner per-day loop of `_load_config` (cli.py lines 170–174):
for each parsed day, `schedules[day] = time_ranges` when `time_ranges`
is truthy and `limits[day] = _parse_duration(duration)` when `duration`
is truthy. -/
def applyDays : List (String × String) → List (String × Int) → List String →
    String → String → Except String (List (String × String) × List (String × Int))
  | schedules, limits, [], _, _ => .ok (schedules, limits)
  | schedules, limits, day :: rest, time_ranges, duration =>
    let schedules' := if time_ranges ≠ "" then dictSet schedules day time_ranges
      else schedules
    if duration ≠ "" then
      match _parse_duration duration with
      | .ok v => applyDays schedules' (dictSet limits day v) rest time_ranges duration
      | .error e => .error e
    else applyDays schedules' limits rest time_ranges duration

/-- Processing of one CSV row by `_load_config` (cli.py lines 150–174):
all three of Days/Time Ranges/Max Duration empty (after stripping) marks
the app `{"always_allowed": True}`; otherwise missing days default to
`"mon-sun"`, missing time ranges to `"00:00-23:59"`, and the parsed days
update the app's `schedules`/`limits` dictionaries.  For an app already
marked always-allowed, `KeyError` is raised only inside the day loop
(the first iteration indexes `apps_config[app]["schedules"]` on a dict
without that key; `time_ranges` is non-empty after defaulting): when the
parsed day list is empty the loop never runs and the row leaves the
entry untouched. -/
def processRow (acc : List (String × AppSettings)) (row : Row) :
    Except String (List (String × AppSettings)) :=
  let app := pyStrip row.app
  let days := pyStrip row.days
  let time_ranges := pyStrip row.timeRanges
  let duration := pyStrip row.maxDuration
  if days = "" ∧ time_ranges = "" ∧ duration = "" then
    .ok (dictSet acc app .alwaysAllowed)
  else
    let days := if days = "" then "mon-sun" else days
    let time_ranges := if time_ranges = "" then "00:00-23:59" else time_ranges
    match dictGet acc app with
    | some .alwaysAllowed =>
      match _parse_days days with
      | .error e => .error e
      | .ok [] => .ok acc
      | .ok (_d :: _rest) => .error "KeyError: schedules"
    | some (.scheduled schedules limits) =>
      match _parse_days days with
      | .error e => .error e
      | .ok parsed =>
        match applyDays schedules limits parsed time_ranges duration with
        | .error e => .error e
        | .ok (schedules', limits') =>
          .ok (dictSet acc app (.scheduled schedules' limits'))
    | none =>
      match _parse_days days with
      | .error e => .error e
      | .ok parsed =>
        match applyDays [] [] parsed time_ranges duration with
        | .error e => .error e
        | .ok (schedules', limits') =>
          .ok (dictSet acc app (.scheduled schedules' limits'))

/-- The row loop of `_load_config`, threading the `apps_config`
dictionary. -/
def loadLoop : List Row → List (String × AppSettings) →
    Except String (List (String × AppSettings))
  | [], acc => .ok acc
  | row :: rest, acc =>
    match processRow acc row with
    | .error e => .error e
    | .ok acc' => loadLoop rest acc'

/-- `_load_config` (cli.py lines 145–176) on the parsed CSV rows. -/
def _load_config (rows : List Row) : Except String (List (String × AppSettings)) :=
  loadLoop rows []

/-- The inner window loop of `_get_expected_limits` (cli.py lines
189–193): each `schedule` in the semicolon-split list is split on `-`
into exactly `start, end` (raising `ValueError` otherwise), and the
first window with `start <= now <= end` (Python string comparison,
both endpoints inclusive) assigns the limit and breaks. -/
def scheduleLoop : List String → Int → String → Except String (Option PyVal)
  | [], _, _ => .ok none
  | schedule :: rest, limit, nowStr =>
    match pySplit schedule '-' with
    | [s, e] =>
      if pyStrLe s nowStr && pyStrLe nowStr e then .ok (some (.vint limit))
      else scheduleLoop rest limit nowStr
    | _ => .error "ValueError: not enough values to unpack"

/-- The per-app body of `_get_expected_limits` (cli.py lines 184–195):
always-allowed apps get `True`; otherwise `elif limit :=
settings["limits"].get(today)` (truthiness: a 0 limit falls through and
the app is omitted), then `if schedules := settings["schedules"].get(today)`
(absent or empty windows assign the limit unconditionally, otherwise the
window loop runs). -/
def resolveApp (settings : AppSettings) (today nowStr : String) :
    Except String (Option PyVal) :=
  match settings with
  | .alwaysAllowed => .ok (some (.vbool true))
  | .scheduled schedules limits =>
    match dictGet limits today with
    | some limit =>
      if limit ≠ 0 then
        match dictGet schedules today with
        | some scheds =>
          if scheds ≠ "" then scheduleLoop (pySplit scheds ';') limit nowStr
          else .ok (some (.vint limit))
        | none => .ok (some (.vint limit))
      else .ok none
    | none => .ok none

/-- The app loop of `_get_expected_limits`, building the
`expected_limits` dictionary in configuration order. -/
def expLoop (today nowStr : String) : List (String × AppSettings) →
    List (String × PyVal) → Except String (List (String × PyVal))
  | [], acc => .ok acc
  | (app, settings) :: rest, acc =>
    match resolveApp settings today nowStr with
    | .error e => .error e
    | .ok (some v) => expLoop today nowStr rest (dictSet acc app v)
    | .ok none => expLoop today nowStr rest acc

/-- `_get_expected_limits` (cli.py lines 179–196), with the evaluation
instant (today's lowercase weekday name and the zero-padded `HH:MM`
time) passed explicitly instead of read from `datetime.now()`. -/
def _get_expected_limits (config : List (String × AppSettings))
    (today nowStr : String) : Except String (List (String × PyVal)) :=
  expLoop today nowStr config []

/-- `AlwaysAllowedState` (models.py): the enum has the single member
`ENABLED = "alwaysAllowedStateEnabled"`. -/
inductive AlwaysAllowedState where
  | enabled
deriving DecidableEq, Repr

/-- `AlwaysAllowedAppInfo` (models.py). -/
structure AlwaysAllowedAppInfo where
  alwaysAllowedState : AlwaysAllowedState
deriving DecidableEq, Repr

/-- `UsageLimit` (models.py): daily limit in minutes plus enabled flag. -/
structure UsageLimit where
  dailyUsageLimitMins : Int
  enabled : Bool
deriving DecidableEq, Repr

/-- `SupervisionSetting` (models.py), restricted to the fields the
modelled code paths read (`hidden`, `usage_limit`,
`always_allowed_app_info`); the remaining response fields are never
consulted by cli.py or the modelled client.py functions. -/
structure SupervisionSetting where
  hidden : Bool
  usageLimit : Option UsageLimit
  alwaysAllowedAppInfo : Option AlwaysAllowedAppInfo
deriving DecidableEq, Repr

/-- `App` (models.py), restricted to the fields the modelled code paths
read (`package_name`, `title`, `supervision_setting`). -/
structure FetchedApp where
  packageName : String
  title : String
  supervisionSetting : SupervisionSetting
deriving DecidableEq, Repr

/-- The always-allowed test of cli.py lines 212–216 / client.py: the
`always_allowed_app_info` object is present and its state equals
`AlwaysAllowedState.ENABLED`. -/
def alwaysAllowedEnabled (s : SupervisionSetting) : Bool :=
  match s.alwaysAllowedAppInfo with
  | some info => info.alwaysAllowedState = .enabled
  | none => false

/-- The `current_limit_per_app` construction of `_apply_config` (cli.py
lines 205–223): a truthy `usage_limit` object maps the title to its
`daily_usage_limit_mins`; else `hidden` maps it to `False`; else an
enabled always-allow maps it to `True`; else a package name starting
with neither `com.google` nor `com.android` maps it to `None`
(unsupervised); Google/Android system apps without any of these fall
through with no entry. -/
def buildStep (acc : List (String × PyVal)) (app : FetchedApp) :
    List (String × PyVal) :=
  match app.supervisionSetting.usageLimit with
  | some limit => dictSet acc app.title (.vint limit.dailyUsageLimitMins)
  | none =>
    if app.supervisionSetting.hidden then dictSet acc app.title (.vbool false)
    else if alwaysAllowedEnabled app.supervisionSetting then
      dictSet acc app.title (.vbool true)
    else if !(leadsWith "com.google".data app.packageName.data
        || leadsWith "com.android".data app.packageName.data) then
      dictSet acc app.title .vnone
    else acc

def buildCurrentState (apps : List FetchedApp) : List (String × PyVal) :=
  apps.foldl buildStep []

/-- `_cache_app_names` (client.py line 233–234): the dictionary
`{app.title: app.package_name for app in resp.apps}`. -/
def _cache_app_names (apps : List FetchedApp) : List (String × String) :=
  apps.foldl (fun acc app => dictSet acc app.title app.packageName) []

/-- The case-insensitive membership test of `_get_app_package_name`
(client.py line 246): `name.lower() in app_name.lower()`. -/
def substrCI (name app_name : String) : Bool :=
  occursIn (pyLower name).data (pyLower app_name).data

/-- The resolution steps of `_get_app_package_name` after the cache is
ensured non-empty (client.py lines 241–249): exact membership among the
cached package names returns the name itself; otherwise the first cache
item whose title contains the name case-insensitively wins; otherwise
`ValueError`. -/
def resolveInNames (names : List (String × String)) (name : String) :
    Except String String :=
  if (names.map Prod.snd).contains name then .ok name
  else
    match names.find? (fun p => substrCI name p.1) with
    | some p => .ok p.2
    | none => .error ("ValueError: Could not find package name for app: " ++ name)

/-- `_get_app_package_name` (client.py lines 236–249), with the
`self._app_names` cache and the apps a forced `get_apps_and_usage()`
would return passed explicitly: an empty (falsy) cache is first
repopulated from the fetch, then `resolveInNames` runs on the resulting
cache. -/
def _get_app_package_name (appNames : List (String × String))
    (fetchedApps : List FetchedApp) (name : String) : Except String String :=
  resolveInNames (if appNames.isEmpty then _cache_app_names fetchedApps else appNames)
    name

/-- The `data` payload shapes built by `update_app_restrictions`
(client.py lines 128–133): `[[pkg], [1]]` for block,
`[[pkg], None, None, [1]]` for always-allow and
`[[pkg], None, [mins, 1]]` for a time limit. -/
inductive RestrictionData where
  | blockData (packageName : String)
  | allowData (packageName : String)
  | limitData (packageName : String) (mins : Int)
deriving DecidableEq, Repr

/-- Python `bool(time_limit_minutes)` for an `Optional[int]`: `None`
and `0` are falsy. -/
def pyBoolOptInt : Option Int → Bool
  | none => false
  | some n => n != 0

/-- `update_app_restrictions` (client.py lines 106–146), up to the HTTP
boundary: `.ok data` means exactly one POST with that payload is issued
(raising only on a non-2xx response), `.error` means an exception is
raised before any request.  The guard counts
`sum([bool(time_limit_minutes), block, always_allow])`; then the package
name is resolved; then the payload is chosen, with the final `else`
raising `ValueError` when none of the three options is set. -/
def update_app_restrictions (appNames : List (String × String))
    (fetchedApps : List FetchedApp) (app_name : String)
    (time_limit_minutes : Option Int) (block always_allow : Bool) :
    Except String RestrictionData :=
  if (pyBoolOptInt time_limit_minutes).toNat + block.toNat + always_allow.toNat > 1 then
    .error "ValueError: Can only specify one of: time_limit_minutes, block, or always_allow"
  else
    match _get_app_package_name appNames fetchedApps app_name with
    | .error e => .error e
    | .ok package_name =>
      if block then .ok (.blockData package_name)
      else if always_allow then .ok (.allowData package_name)
      else
        match time_limit_minutes with
        | some mins => .ok (.limitData package_name mins)
        | none =>
          .error "ValueError: Must specify one of: time_limit_minutes, block, or always_allow"

/-- `remove_app_limit` (client.py lines 154–155):
`update_app_restrictions(name, time_limit_minutes=None)` with the
defaults `block=False`, `always_allow=False`. -/
def remove_app_limit (appNames : List (String × String))
    (fetchedApps : List FetchedApp) (name : String) : Except String RestrictionData :=
  update_app_restrictions appNames fetchedApps name none false false

/-- `set_app_limit` (client.py lines 157–158). -/
def set_app_limit (appNames : List (String × String))
    (fetchedApps : List FetchedApp) (name : String) (time_limit_minutes : Int) :
    Except String RestrictionData :=
  update_app_restrictions appNames fetchedApps name (some time_limit_minutes) false false

/-- `block_app` (client.py lines 148–149). -/
def block_app (appNames : List (String × String))
    (fetchedApps : List FetchedApp) (name : String) : Except String RestrictionData :=
  update_app_restrictions appNames fetchedApps name none true false

/-- `always_allow_app` (client.py lines 151–152). -/
def always_allow_app (appNames : List (String × String))
    (fetchedApps : List FetchedApp) (name : String) : Except String RestrictionData :=
  update_app_restrictions appNames fetchedApps name none false true

theorem dictGet_dictSet_self {α : Type} (l : List (String × α)) (k : String) (v : α) :
    dictGet (dictSet l k v) k = some v := by
  induction l with
  | nil => simp [dictGet, dictSet]
  | cons p rest ih =>
    obtain ⟨k', w⟩ := p
    by_cases h : k' = k
    · simp [dictSet, dictGet, h]
    · simp [dictSet, dictGet, h, ih]

theorem dictGet_dictSet_ne {α : Type} (l : List (String × α)) (k key : String) (v : α)
    (h : key ≠ k) : dictGet (dictSet l k v) key = dictGet l key := by
  have h' : k ≠ key := Ne.symm h
  induction l with
  | nil => simp [dictGet, dictSet, h']
  | cons p rest ih =>
    obtain ⟨k', w⟩ := p
    by_cases hk : k' = k
    · subst hk
      simp [dictSet, dictGet, h']
    · by_cases hk2 : k' = key
      · simp [dictSet, dictGet, hk, hk2, h]
      · simp [dictSet, dictGet, hk, hk2, ih]

theorem dictGet_eq_none {α : Type} (l : List (String × α)) (t : String)
    (h : ∀ p ∈ l, p.1 ≠ t) : dictGet l t = none := by
  induction l with
  | nil => rfl
  | cons p rest ih =>
    obtain ⟨k, v⟩ := p
    have hk : k ≠ t := h (k, v) (List.mem_cons_self _ _)
    simp only [dictGet, if_neg hk]
    exact ih (fun q hq => h q (List.mem_cons_of_mem _ hq))

theorem pyEq_refl (v : PyVal) : pyEq v v = true := by
  cases v <;> simp [pyEq]

theorem actionApp_decideAction (expected : List (String × PyVal)) (app : String)
    (limit : PyVal) : actionApp (decideAction expected app limit) = app := by
  cases h : dictGet expected app <;>
    simp only [decideAction, h] <;> split_ifs <;> rfl

/-- One reconciliation step is a fixed point of the claimed action
semantics: re-deciding an app after its action has been applied gives a
no-op. -/
theorem decideAction_idem (expected : List (String × PyVal)) (app : String) (l : PyVal) :
    decideAction expected app (applyValue (decideAction expected app l) l) = .noop app := by
  cases h : dictGet expected app with
  | none =>
    simp only [decideAction, h]
    cases hf : isFalseObj l
    · simp [applyValue, isFalseObj]
    · simp [applyValue, hf]
  | some ev =>
    simp only [decideAction, h]
    cases ht : pyTruthy ev
    · cases hf : isFalseObj l
      · simp [applyValue, isFalseObj]
      · simp [applyValue, hf]
    · cases he : pyEq ev l
      · by_cases hb : ev = PyVal.vbool true
        · subst hb
          simp [applyValue, pyEq]
        · simp [applyValue, hb, pyEq_refl]
      · simp [applyValue, he]

/-- Claim C1: the spec asserts the expected/current comparison of the
reconciler is exact including type, so expected `True` with current `1`
(and expected `1` with current `True`) must not be a no-op match.  The
code compares with Python `==`, under which `True == 1`, so both pairs
reconcile to `NoOp`: evaluation of the embedded reconciler at the two
failing inputs. -/
theorem claim1_true_eq_one_noop :
    decideAction [("App", .vbool true)] "App" (.vint 1) = .noop "App" ∧
    decideAction [("App", .vint 1)] "App" (.vbool true) = .noop "App" := by
  decide

/-- Claim C5: an app present in the current state with no expected-state
entry reconciles to `NoOp` exactly when its current value is the object
`False`, and to `Block` for every other current value (numeric cap,
`True`, or `None`/unsupervised). -/
theorem claim5_unmanaged_decision (expected : List (String × PyVal)) (app : String)
    (limit : PyVal) (h : dictGet expected app = none) :
    (limit = .vbool false → decideAction expected app limit = .noop app) ∧
    (limit ≠ .vbool false → decideAction expected app limit = .block app) := by
  constructor
  · intro hl
    subst hl
    simp [decideAction, h, isFalseObj]
  · intro hl
    have hf : isFalseObj limit = false := by
      cases limit with
      | vbool b =>
        cases b with
        | false => exact absurd rfl hl
        | true => rfl
      | vint n => rfl
      | vnone => rfl
    simp [decideAction, h, hf]

theorem claim5_unmanaged_decision_witness :
    decideAction [] "Chat" .vnone = .block "Chat" ∧
    decideAction [] "News" (.vbool false) = .noop "News" :=
  ⟨(claim5_unmanaged_decision [] "Chat" .vnone rfl).2 (by decide),
   (claim5_unmanaged_decision [] "News" (.vbool false) rfl).1 rfl⟩

/-- Claim C6: the reconciler is idempotent — applying the emitted
actions to the current state (set-limit writes the value, always-allow
writes `True`, block writes `False`, no-op leaves the value) and
reconciling again against the same expected state yields only no-op
actions, for every pair of maps. -/
theorem claim6_reconcile_idempotent (expected current : List (String × PyVal)) :
    (reconcile expected (applyReconcile expected current)).all isNoop = true := by
  simp only [reconcile, applyReconcile, List.map_map, List.all_eq_true]
  intro a ha
  rw [List.mem_map] at ha
  obtain ⟨p, hp, rfl⟩ := ha
  simp [Function.comp, decideAction_idem, isNoop]

/-- Claim C3 (code bug evaluation): clearing a cap via
`remove_app_limit` never reaches the HTTP call.  For every app name that
resolves to a package name, `update_app_restrictions` with
`time_limit_minutes=None, block=False, always_allow=False` passes the
exclusivity guard, resolves the name, and then falls into the final
`else` branch and raises `ValueError` — contradicting both the claim
(one blocking mutation round trip) and the function's own docstring
("None to remove time limit"). -/
theorem claim3_remove_limit_raises (appNames : List (String × String))
    (fetchedApps : List FetchedApp) (name pkg : String)
    (h : _get_app_package_name appNames fetchedApps name = .ok pkg) :
    remove_app_limit appNames fetchedApps name =
      .error "ValueError: Must specify one of: time_limit_minutes, block, or always_allow" := by
  simp [remove_app_limit, update_app_restrictions, pyBoolOptInt, h]

theorem claim3_remove_limit_raises_witness :
    remove_app_limit [("MyApp", "com.my.app")] [] "MyApp" =
      .error "ValueError: Must specify one of: time_limit_minutes, block, or always_allow" :=
  claim3_remove_limit_raises [("MyApp", "com.my.app")] [] "MyApp" "com.my.app" (by decide)

/-- The `i`-th abbreviated day key of `days_map` in Monday→Sunday
order (`"mon"`, …, `"sun"`). -/
def dayKey (i : Fin 7) : String := (daysMap.map Prod.fst).getD i.val ""

/-- Claim C4 counterexample: the reversed day range `"wed-mon"` is not
a fatal configuration error — `_parse_days` returns the empty day list
(the Python slice `all_days[2:1]` is empty) and `_load_config` proceeds,
leaving the app with empty schedules and limits. -/
theorem claim4_reversed_range_counterexample :
    _parse_days "wed-mon" = .ok [] ∧
    _load_config [⟨"App", "1:30", "wed-mon", ""⟩] =
      .ok [("App", .scheduled [] [])] := by
  decide

/-- Claim C4 as amended: for every day-range token `X-Y` over the
canonical abbreviated day keys whose end day strictly precedes its start
day in Monday→Sunday order, `_parse_days` silently returns the empty
day list instead of raising, so the run proceeds with the row
contributing no days. -/
theorem claim4_reversed_range_empty :
    ∀ i j : Fin 7, j < i → _parse_days (dayKey i ++ "-" ++ dayKey j) = .ok [] := by
  decide

theorem claim4_reversed_range_empty_witness :
    _parse_days (dayKey 2 ++ "-" ++ dayKey 0) = .ok [] :=
  claim4_reversed_range_empty 2 0 (by decide)

/-- Claim C2 counterexample: an app with a 0-minute duration cap for
today and no time windows is omitted from the expected-state map (the
walrus `elif limit := settings["limits"].get(today)` is falsy at 0)
instead of being mapped to the cap 0. -/
theorem claim2_zero_cap_counterexample :
    Except.map (fun exp => dictGet exp "App")
      (_get_expected_limits [("App", .scheduled [] [("monday", 0)])] "monday" "12:00")
      = .ok none := by
  decide

/-- Whether the evaluation instant's time of day lies within a
`HH:MM-HH:MM` window, both endpoints inclusive, compared as
zero-padded strings (the window test of `_get_expected_limits`). -/
def windowHit (nowStr schedule : String) : Bool :=
  match pySplit schedule '-' with
  | [s, e] => pyStrLe s nowStr && pyStrLe nowStr e
  | _ => false

/-- Claim C8 counterexample: an app with a 0-minute duration cap and a
time window containing the evaluation instant is omitted from the
expected-state map (the cap's truthiness check precedes the window
check), so the resolver does not map the app to its cap even though the
instant lies within a window. -/
theorem claim8_zero_cap_counterexample :
    Except.map (fun exp => dictGet exp "App")
      (_get_expected_limits [("App", .scheduled [("monday", "00:00-23:59")] [("monday", 0)])]
        "monday" "12:00") = .ok none ∧
    windowHit "12:00" "00:00-23:59" = true := by
  decide

theorem expLoop_skip (today nowStr : String) (config : List (String × AppSettings))
    (acc exp : List (String × PyVal)) (app : String)
    (hmem : ∀ p ∈ config, p.1 ≠ app)
    (h : expLoop today nowStr config acc = .ok exp) :
    dictGet exp app = dictGet acc app := by
  induction config generalizing acc with
  | nil =>
    simp only [expLoop] at h
    cases h
    rfl
  | cons q rest ih =>
    obtain ⟨a, s⟩ := q
    have ha : a ≠ app := hmem (a, s) (List.mem_cons_self _ _)
    have hmem' : ∀ p ∈ rest, p.1 ≠ app :=
      fun p hp => hmem p (List.mem_cons_of_mem _ hp)
    simp only [expLoop] at h
    cases hr : resolveApp s today nowStr with
    | error e =>
      rw [hr] at h
      cases h
    | ok r =>
      rw [hr] at h
      cases r with
      | none => exact ih acc hmem' h
      | some v =>
        rw [ih (dictSet acc a v) hmem' h]
        exact dictGet_dictSet_ne acc a app v (Ne.symm ha)

theorem expLoop_get (today nowStr : String) (config : List (String × AppSettings))
    (acc exp : List (String × PyVal)) (app : String) (settings : AppSettings)
    (hnd : (config.map Prod.fst).Nodup)
    (hget : dictGet config app = some settings)
    (h : expLoop today nowStr config acc = .ok exp) :
    (∀ v, resolveApp settings today nowStr = .ok (some v) → dictGet exp app = some v) ∧
    (resolveApp settings today nowStr = .ok none → dictGet exp app = dictGet acc app) := by
  induction config generalizing acc with
  | nil => cases hget
  | cons q rest ih =>
    obtain ⟨a, s⟩ := q
    rw [List.map_cons, List.nodup_cons] at hnd
    by_cases ha : a = app
    · subst ha
      have hs : s = settings := by
        simp only [dictGet, if_pos rfl] at hget
        exact Option.some.inj hget
      subst hs
      have hrest : ∀ p ∈ rest, p.1 ≠ a := by
        intro p hp heq
        apply hnd.1
        rw [← heq]
        exact List.mem_map.mpr ⟨p, hp, rfl⟩
      simp only [expLoop] at h
      constructor
      · intro v hv
        rw [hv] at h
        rw [expLoop_skip today nowStr rest (dictSet acc a v) exp a hrest h]
        exact dictGet_dictSet_self acc a v
      · intro hv
        rw [hv] at h
        exact expLoop_skip today nowStr rest acc exp a hrest h
    · have hget' : dictGet rest app = some settings := by
        simpa [dictGet, ha] using hget
      simp only [expLoop] at h
      cases hr : resolveApp s today nowStr with
      | error e =>
        rw [hr] at h
        cases h
      | ok r =>
        rw [hr] at h
        cases r with
        | none => exact ih acc hnd.2 hget' h
        | some v =>
          have hrec := ih (dictSet acc a v) hnd.2 hget' h
          refine ⟨hrec.1, fun hv => ?_⟩
          rw [hrec.2 hv]
          exact dictGet_dictSet_ne acc a app v (fun he => ha he.symm)

/-- Claim C2 as amended: an app whose configuration has a positive
duration cap for today's weekday and no time-window entry for that day
is mapped by `_get_expected_limits` to exactly that cap, for every time
of day (a 0-minute cap is instead dropped, see the counterexample). -/
theorem claim2_positive_cap (config : List (String × AppSettings))
    (today nowStr app : String) (schedules : List (String × String))
    (limits : List (String × Int)) (cap : Int) (exp : List (String × PyVal))
    (hnd : (config.map Prod.fst).Nodup)
    (hc : dictGet config app = some (.scheduled schedules limits))
    (hcap : dictGet limits today = some cap) (hpos : 0 < cap)
    (hsch : dictGet schedules today = none)
    (h : _get_expected_limits config today nowStr = .ok exp) :
    dictGet exp app = some (.vint cap) := by
  have hres : resolveApp (.scheduled schedules limits) today nowStr =
      .ok (some (.vint cap)) := by
    have hne : cap ≠ 0 := by omega
    simp [resolveApp, hcap, hsch, hne]
  exact (expLoop_get today nowStr config [] exp app _ hnd hc h).1 _ hres

theorem claim2_positive_cap_witness :
    dictGet [("Games", PyVal.vint 90)] "Games" = some (.vint 90) :=
  claim2_positive_cap [("Games", .scheduled [] [("tuesday", 90)])] "tuesday" "09:13"
    "Games" [] [("tuesday", 90)] 90 [("Games", .vint 90)] (by decide) (by decide)
    (by decide) (by decide) (by decide) (by decide)

theorem scheduleLoop_any (ws : List String) (limit : Int) (nowStr : String)
    (hwf : ∀ w ∈ ws, (pySplit w '-').length = 2) :
    scheduleLoop ws limit nowStr =
      .ok (if ws.any (fun w => windowHit nowStr w) then some (.vint limit) else none) := by
  induction ws with
  | nil => simp [scheduleLoop]
  | cons w rest ih =>
    have h2 := hwf w (List.mem_cons_self _ _)
    obtain ⟨s, e, hse⟩ : ∃ s e, pySplit w '-' = [s, e] := by
      match hx : pySplit w '-' with
      | [] => rw [hx] at h2; cases h2
      | [a] => rw [hx] at h2; cases h2
      | [a, b] => exact ⟨a, b, rfl⟩
      | a :: b :: c :: t => rw [hx] at h2; cases h2
    have ihr := ih (fun x hx => hwf x (List.mem_cons_of_mem _ hx))
    cases hh : pyStrLe s nowStr && pyStrLe nowStr e
    · simp [scheduleLoop, hse, List.any_cons, windowHit, hh, ihr]
    · simp [scheduleLoop, hse, List.any_cons, windowHit, hh]

/-- Claim C8 as amended: an app with a positive duration cap and a
non-empty time-window string for today's weekday is mapped by
`_get_expected_limits` to the cap exactly when the instant's time of
day falls within at least one of the semicolon-separated windows (both
endpoints inclusive, zero-padded string comparison, first match
breaking the loop); when no window matches, the app is omitted from the
expected state (a 0-minute cap is instead always dropped, see the
counterexample). -/
theorem claim8_window_gating (config : List (String × AppSettings))
    (today nowStr app : String) (schedules : List (String × String))
    (limits : List (String × Int)) (cap : Int) (scheds : String)
    (exp : List (String × PyVal))
    (hnd : (config.map Prod.fst).Nodup)
    (hc : dictGet config app = some (.scheduled schedules limits))
    (hcap : dictGet limits today = some cap) (hpos : 0 < cap)
    (hsch : dictGet schedules today = some scheds) (hne : scheds ≠ "")
    (hwf : ∀ w ∈ pySplit scheds ';', (pySplit w '-').length = 2)
    (h : _get_expected_limits config today nowStr = .ok exp) :
    ((pySplit scheds ';').any (fun w => windowHit nowStr w) = true →
      dictGet exp app = some (.vint cap)) ∧
    ((pySplit scheds ';').any (fun w => windowHit nowStr w) = false →
      dictGet exp app = none) := by
  have hcapne : cap ≠ 0 := by omega
  have hres : resolveApp (.scheduled schedules limits) today nowStr =
      .ok (if (pySplit scheds ';').any (fun w => windowHit nowStr w)
        then some (.vint cap) else none) := by
    simp only [resolveApp, hcap, hsch]
    rw [if_pos hcapne, if_pos hne]
    exact scheduleLoop_any _ cap nowStr hwf
  have hget := expLoop_get today nowStr config [] exp app _ hnd hc h
  constructor
  · intro hany
    rw [hany] at hres
    exact hget.1 _ (by simpa using hres)
  · intro hany
    rw [hany] at hres
    have := hget.2 (by simpa using hres)
    simpa [dictGet] using this

theorem claim8_window_gating_witness :
    dictGet [("Games", PyVal.vint 90)] "Games" = some (.vint 90) ∧
    dictGet ([] : List (String × PyVal)) "Games" = none :=
  ⟨(claim8_window_gating
      [("Games", .scheduled [("tuesday", "10:00-12:00;14:00-16:00")] [("tuesday", 90)])]
      "tuesday" "11:30" "Games" [("tuesday", "10:00-12:00;14:00-16:00")]
      [("tuesday", 90)] 90 "10:00-12:00;14:00-16:00" [("Games", PyVal.vint 90)]
      (by decide) (by decide) (by decide) (by decide) (by decide) (by decide)
      (by decide) (by decide)).1 (by decide),
   (claim8_window_gating
      [("Games", .scheduled [("tuesday", "10:00-12:00;14:00-16:00")] [("tuesday", 90)])]
      "tuesday" "13:00" "Games" [("tuesday", "10:00-12:00;14:00-16:00")]
      [("tuesday", 90)] 90 "10:00-12:00;14:00-16:00" []
      (by decide) (by decide) (by decide) (by decide) (by decide) (by decide)
      (by decide) (by decide)).2 (by decide)⟩

theorem processRow_always (acc : List (String × AppSettings)) (row : Row)
    (hd : pyStrip row.days = "") (ht : pyStrip row.timeRanges = "")
    (hm : pyStrip row.maxDuration = "") :
    processRow acc row = .ok (dictSet acc (pyStrip row.app) .alwaysAllowed) := by
  simp [processRow, hd, ht, hm]

/-- A successful `processRow` either leaves the accumulator unchanged
(a non-empty row for an always-allowed app whose parsed day list is
empty) or rewrites exactly the binding of the row's stripped app
name. -/
theorem processRow_ok_shape (acc acc' : List (String × AppSettings)) (row : Row)
    (h : processRow acc row = .ok acc') :
    acc' = acc ∨ ∃ s : AppSettings, acc' = dictSet acc (pyStrip row.app) s := by
  by_cases hemp : pyStrip row.days = "" ∧ pyStrip row.timeRanges = "" ∧
      pyStrip row.maxDuration = ""
  · rw [processRow_always acc row hemp.1 hemp.2.1 hemp.2.2] at h
    exact Or.inr ⟨.alwaysAllowed, (Except.ok.inj h).symm⟩
  · simp only [processRow] at h
    rw [if_neg hemp] at h
    split at h
    next heq =>
      split at h
      next e heq2 => simp at h
      next heq2 => exact Or.inl (Except.ok.inj h).symm
      next d rest heq2 => simp at h
    next schedules limits heq =>
      split at h
      next e heq2 => simp at h
      next parsed heq2 =>
        split at h
        next e heq3 => simp at h
        next schedules' limits' heq3 =>
          exact Or.inr ⟨.scheduled schedules' limits', (Except.ok.inj h).symm⟩
    next heq =>
      split at h
      next e heq2 => simp at h
      next parsed heq2 =>
        split at h
        next e heq3 => simp at h
        next schedules' limits' heq3 =>
          exact Or.inr ⟨.scheduled schedules' limits', (Except.ok.inj h).symm⟩

theorem processRow_preserves_always (acc acc' : List (String × AppSettings))
    (row : Row) (app : String)
    (ha : dictGet acc app = some .alwaysAllowed)
    (h : processRow acc row = .ok acc') :
    dictGet acc' app = some .alwaysAllowed := by
  by_cases happ : pyStrip row.app = app
  · by_cases hemp : pyStrip row.days = "" ∧ pyStrip row.timeRanges = "" ∧
        pyStrip row.maxDuration = ""
    · rw [processRow_always acc row hemp.1 hemp.2.1 hemp.2.2] at h
      rw [← Except.ok.inj h, happ]
      exact dictGet_dictSet_self acc app .alwaysAllowed
    · simp only [processRow] at h
      rw [if_neg hemp, happ] at h
      simp only [ha] at h
      split at h
      next heq => simp at h
      next heq =>
        rw [← Except.ok.inj h]
        exact ha
      next d rest heq => simp at h
  · rcases processRow_ok_shape acc acc' row h with rfl | ⟨s, rfl⟩
    · exact ha
    · rw [dictGet_dictSet_ne acc _ app s (fun he => happ he.symm)]
      exact ha

theorem loadLoop_preserves_always (rows : List Row)
    (acc cfg : List (String × AppSettings)) (app : String)
    (ha : dictGet acc app = some .alwaysAllowed)
    (h : loadLoop rows acc = .ok cfg) :
    dictGet cfg app = some .alwaysAllowed := by
  induction rows generalizing acc with
  | nil =>
    simp only [loadLoop] at h
    cases h
    exact ha
  | cons row rest ih =>
    simp only [loadLoop] at h
    cases hp : processRow acc row with
    | error e => rw [hp] at h; cases h
    | ok acc' =>
      rw [hp] at h
      exact ih acc' (processRow_preserves_always acc acc' row app ha hp) h

theorem loadLoop_always_of_mem (rows : List Row)
    (acc cfg : List (String × AppSettings)) (r : Row) (hr : r ∈ rows)
    (hd : pyStrip r.days = "") (ht : pyStrip r.timeRanges = "")
    (hm : pyStrip r.maxDuration = "")
    (h : loadLoop rows acc = .ok cfg) :
    dictGet cfg (pyStrip r.app) = some .alwaysAllowed := by
  induction rows generalizing acc with
  | nil => cases hr
  | cons row rest ih =>
    simp only [loadLoop] at h
    cases hp : processRow acc row with
    | error e => rw [hp] at h; cases h
    | ok acc' =>
      rw [hp] at h
      rcases List.mem_cons.mp hr with heq | hmem
      · subst heq
        rw [processRow_always acc r hd ht hm] at hp
        have hacc : acc' = dictSet acc (pyStrip r.app) .alwaysAllowed :=
          (Except.ok.inj hp).symm
        subst hacc
        exact loadLoop_preserves_always rest _ cfg _
          (dictGet_dictSet_self acc _ .alwaysAllowed) h
      · exact ih acc' hmem h

/-- Claim C9: a configuration row with all of Days, Time Ranges and Max
Duration empty marks the app always-allowed in the loaded
configuration, and an always-allowed app resolves to expected value
`True` for every weekday and time of day. -/
theorem claim9_always_allowed (rows : List Row)
    (cfg : List (String × AppSettings)) (r : Row)
    (hld : _load_config rows = .ok cfg) (hr : r ∈ rows)
    (hd : pyStrip r.days = "") (ht : pyStrip r.timeRanges = "")
    (hm : pyStrip r.maxDuration = "") :
    dictGet cfg (pyStrip r.app) = some .alwaysAllowed ∧
    ∀ today nowStr : String,
      resolveApp .alwaysAllowed today nowStr = .ok (some (.vbool true)) := by
  refine ⟨loadLoop_always_of_mem rows [] cfg r hr hd ht hm hld, fun _ _ => rfl⟩

theorem claim9_always_allowed_witness :
    dictGet [("Browser", AppSettings.alwaysAllowed)] "Browser" =
      some .alwaysAllowed ∧
    resolveApp .alwaysAllowed "friday" "23:59" = .ok (some (.vbool true)) :=
  ⟨(claim9_always_allowed [⟨"Browser", "", "", ""⟩]
      [("Browser", .alwaysAllowed)] ⟨"Browser", "", "", ""⟩ (by decide)
      (List.mem_singleton.mpr rfl) (by decide) (by decide) (by decide)).1,
   (claim9_always_allowed [⟨"Browser", "", "", ""⟩]
      [("Browser", .alwaysAllowed)] ⟨"Browser", "", "", ""⟩ (by decide)
      (List.mem_singleton.mpr rfl) (by decide) (by decide) (by decide)).2
      "friday" "23:59"⟩

theorem find?_first {α : Type} (p : α → Bool) (l₁ l₂ : List α) (x : α)
    (hx : p x = true) (h1 : ∀ y ∈ l₁, p y = false) :
    (l₁ ++ x :: l₂).find? p = some x := by
  induction l₁ with
  | nil => simp [List.find?, hx]
  | cons a as ih =>
    have ha := h1 a (List.mem_cons_self _ _)
    simp [List.find?, ha, ih (fun y hy => h1 y (List.mem_cons_of_mem _ hy))]

/-- Claim C7: identifier resolution forces one state fetch exactly when
the name→identifier cache is empty; on the effective cache it returns
the requested name itself when it is one of the known package names,
otherwise the package name of the first entry whose display name
contains the request case-insensitively, and otherwise the distinct
not-found `ValueError`. -/
theorem claim7_package_resolution (appNames : List (String × String))
    (fetchedApps : List FetchedApp) (name : String) :
    (_get_app_package_name [] fetchedApps name
      = resolveInNames (_cache_app_names fetchedApps) name)
    ∧ (appNames ≠ [] →
        _get_app_package_name appNames fetchedApps name = resolveInNames appNames name)
    ∧ ∀ names : List (String × String),
        (((names.map Prod.snd).contains name = true →
            resolveInNames names name = .ok name)
        ∧ ((names.map Prod.snd).contains name = false →
            ∀ l₁ q l₂, names = l₁ ++ q :: l₂ → substrCI name q.1 = true →
              (∀ r ∈ l₁, substrCI name r.1 = false) →
              resolveInNames names name = .ok q.2)
        ∧ ((names.map Prod.snd).contains name = false →
            (∀ r ∈ names, substrCI name r.1 = false) →
            resolveInNames names name =
              .error ("ValueError: Could not find package name for app: " ++ name))) := by
  refine ⟨rfl, fun hne => ?_, fun names => ⟨fun hc => ?_, fun hc l₁ q l₂ hdec hq hl₁ => ?_,
    fun hc hnone => ?_⟩⟩
  · cases appNames with
    | nil => exact absurd rfl hne
    | cons a as => rfl
  · rw [resolveInNames, if_pos hc]
  · subst hdec
    rw [resolveInNames, if_neg (by rw [hc]; decide),
      find?_first (fun p => substrCI name p.1) l₁ l₂ q hq hl₁]
  · rw [resolveInNames, if_neg (by rw [hc]; decide),
      List.find?_eq_none.mpr (fun r hr => by simp [hnone r hr])]

theorem claim7_package_resolution_witness :
    _get_app_package_name
      [("YouTube Kids", "com.google.android.apps.youtube.kids")] [] "youtube"
      = .ok "com.google.android.apps.youtube.kids" := by
  have h := claim7_package_resolution
    [("YouTube Kids", "com.google.android.apps.youtube.kids")] [] "youtube"
  rw [h.2.1 (by decide)]
  exact (h.2.2 [("YouTube Kids", "com.google.android.apps.youtube.kids")]).2.1
    (by decide) [] ("YouTube Kids", "com.google.android.apps.youtube.kids") []
    rfl (by decide) (fun r hr => absurd hr (List.not_mem_nil r))

theorem mem_dictSet {α : Type} (l : List (String × α)) (k : String) (v : α)
    (p : String × α) (hp : p ∈ dictSet l k v) : p.1 = k ∨ p ∈ l := by
  induction l with
  | nil =>
    simp only [dictSet, List.mem_singleton] at hp
    exact Or.inl (by rw [hp])
  | cons q rest ih =>
    obtain ⟨k', w⟩ := q
    by_cases hk : k' = k
    · simp only [dictSet, if_pos hk] at hp
      rcases List.mem_cons.mp hp with h1 | h2
      · exact Or.inl (by rw [h1])
      · exact Or.inr (List.mem_cons_of_mem _ h2)
    · simp only [dictSet, if_neg hk] at hp
      rcases List.mem_cons.mp hp with h1 | h2
      · exact Or.inr (h1 ▸ List.mem_cons_self _ _)
      · rcases ih h2 with h3 | h4
        · exact Or.inl h3
        · exact Or.inr (List.mem_cons_of_mem _ h4)

/-- The skip condition of claim C10: a fetched app whose package name
starts with `com.google` or `com.android` and which has no usage limit,
is not hidden, and is not always-allowed — the fall-through case of the
current-state construction. -/
def skipApp (a : FetchedApp) : Bool :=
  (leadsWith "com.google".data a.packageName.data
    || leadsWith "com.android".data a.packageName.data)
  && a.supervisionSetting.usageLimit.isNone
  && !a.supervisionSetting.hidden
  && !alwaysAllowedEnabled a.supervisionSetting

theorem buildStep_no_title (acc : List (String × PyVal)) (app : FetchedApp)
    (t : String) (hacc : ∀ p ∈ acc, p.1 ≠ t)
    (happ : app.title = t → skipApp app = true) :
    ∀ p ∈ buildStep acc app, p.1 ≠ t := by
  by_cases hT : app.title = t
  · have hskip := happ hT
    simp only [skipApp, Bool.and_eq_true, Bool.not_eq_true'] at hskip
    obtain ⟨⟨⟨hpre, hnl⟩, hnh⟩, hna⟩ := hskip
    simp only [buildStep]
    cases hu : app.supervisionSetting.usageLimit with
    | some l => rw [hu] at hnl; cases hnl
    | none =>
      rw [if_neg (by rw [hnh]; decide), if_neg (by rw [hna]; decide),
        if_neg (by rw [hpre]; decide)]
      exact hacc
  · have key : ∀ (v : PyVal), ∀ p ∈ dictSet acc app.title v, p.1 ≠ t := by
      intro v p hp
      rcases mem_dictSet acc app.title v p hp with h1 | h2
      · rw [h1]; exact hT
      · exact hacc p h2
    simp only [buildStep]
    cases hu : app.supervisionSetting.usageLimit with
    | some l => exact key _
    | none =>
      by_cases hh : app.supervisionSetting.hidden
      · rw [if_pos hh]; exact key _
      · rw [if_neg hh]
        by_cases ha : alwaysAllowedEnabled app.supervisionSetting
        · rw [if_pos ha]; exact key _
        · rw [if_neg ha]
          by_cases hp : leadsWith "com.google".data app.packageName.data
              || leadsWith "com.android".data app.packageName.data
          · rw [if_neg (by simp [hp])]; exact hacc
          · rw [if_pos (by simp [Bool.not_eq_true] at hp; simp [hp])]; exact key _

theorem buildFold_no_title (apps : List FetchedApp) (acc : List (String × PyVal))
    (t : String) (hacc : ∀ p ∈ acc, p.1 ≠ t)
    (hall : ∀ a ∈ apps, a.title = t → skipApp a = true) :
    ∀ p ∈ List.foldl buildStep acc apps, p.1 ≠ t := by
  induction apps generalizing acc with
  | nil => simpa using hacc
  | cons a rest ih =>
    simp only [List.foldl_cons]
    exact ih (buildStep acc a)
      (buildStep_no_title acc a t hacc (hall a (List.mem_cons_self _ _)))
      (fun b hb => hall b (List.mem_cons_of_mem _ hb))

/-- Claim C10: a fetched app whose package name starts with
`com.google` or `com.android` and which has no usage limit, is not
hidden and is not always-allowed contributes no entry to the
current-state map, so reconciliation emits no action for its title (in
particular it is never blocked); the hypothesis asks this of every
fetched app bearing that title, since the map is keyed by display
title. -/
theorem claim10_system_apps_skipped (apps : List FetchedApp) (t : String)
    (hall : ∀ a ∈ apps, a.title = t → skipApp a = true) :
    dictGet (buildCurrentState apps) t = none ∧
    ∀ (expected : List (String × PyVal)) (act : ReconcileAction),
      act ∈ reconcile expected (buildCurrentState apps) → actionApp act ≠ t := by
  have hkeys : ∀ p ∈ buildCurrentState apps, p.1 ≠ t :=
    buildFold_no_title apps [] t (by simp) hall
  refine ⟨dictGet_eq_none _ t hkeys, fun expected act hact => ?_⟩
  simp only [reconcile, List.mem_map] at hact
  obtain ⟨p, hp, rfl⟩ := hact
  rw [actionApp_decideAction]
  exact hkeys p hp

theorem claim10_system_apps_skipped_witness :
    dictGet (buildCurrentState
      [⟨"com.google.android.gm", "Gmail", ⟨false, none, none⟩⟩]) "Gmail" = none :=
  (claim10_system_apps_skipped
    [⟨"com.google.android.gm", "Gmail", ⟨false, none, none⟩⟩] "Gmail"
    (by decide)).1


